import Mathlib

/-!
Shallow embedding of the i18n_gen synchronization core (checksum store,
change detector, download/upload worker, run orchestrator) together with
theorems about its behaviour.  File-system state and remote HTTP traffic
are modelled explicitly: a file map assigns optional byte contents to each
(project, locale) pair, and the remote service is a function from request
data to responses.
-/

namespace I18nGen

/-- Byte sequences are lists of naturals (each intended below 256). -/
abbrev Bytes := List Nat

/-- Sentinel hash value used when no file content is available (source: INVALID_CRC32 = 0). -/
def INVALID_CRC32 : Nat := 0

/-- Reversed CRC-32 (IEEE) polynomial, as used by hash/crc32 ChecksumIEEE. -/
def CRC32_POLY : Nat := 0xedb88320

/-- One bit step of the reflected CRC-32 algorithm. -/
def crc32Bit (c : Nat) : Nat :=
  if c % 2 = 1 then (c / 2) ^^^ CRC32_POLY else c / 2

/-- Eight bit steps, i.e. one byte cycle of the reflected CRC-32 algorithm. -/
def crc32Byte (c : Nat) : Nat :=
  crc32Bit (crc32Bit (crc32Bit (crc32Bit (crc32Bit (crc32Bit (crc32Bit (crc32Bit c)))))))

/-- Fold one input byte into the running CRC-32 state. -/
def crc32Update (c b : Nat) : Nat :=
  crc32Byte (c ^^^ (b % 256))

/-- CRC-32 (IEEE) of a byte sequence, as computed by crc32.ChecksumIEEE. -/
def crc32ChecksumIEEE (data : Bytes) : Nat :=
  (data.foldl crc32Update 0xffffffff) ^^^ 0xffffffff

/-- A checksum record: per (project, locale), the content hash and the remote cache token. -/
structure CheckSum where
  dataCrc32 : Nat
  eTag : String
  projectName : String
  localeName : String
deriving DecidableEq

/-- The checksum store is a list of records (source: CheckSumList). -/
abbrev CheckSumList := List CheckSum

/-- The persisted run record: checksum list plus last run time in nanoseconds. -/
structure RunInfo where
  checkSumList : CheckSumList := []
  lastRunTime : Int := 0
deriving DecidableEq

/-- Boolean pair match used by GetETag, GetCrc32 and Upsert
(source condition: e.LocaleName == l && e.ProjectName == p). -/
def matchesPair (p l : String) (e : CheckSum) : Bool :=
  e.localeName == l && e.projectName == p

/-- GetETag returns the token of the first record for the pair, or the empty string. -/
def GetETag : CheckSumList → String → String → String
  | [], _, _ => ""
  | e :: rest, p, l =>
    if e.localeName == l && e.projectName == p then e.eTag else GetETag rest p l

/-- GetCrc32 returns the hash of the first record for the pair, or INVALID_CRC32. -/
def GetCrc32 : CheckSumList → String → String → Nat
  | [], _, _ => INVALID_CRC32
  | e :: rest, p, l =>
    if e.localeName == l && e.projectName == p then e.dataCrc32 else GetCrc32 rest p l

/-- Upsert overwrites the hash and token of the first record for the pair,
or appends a fresh record when none exists. -/
def Upsert : CheckSumList → String → String → String → Nat → CheckSumList
  | [], p, l, etag, c => [⟨c, etag, p, l⟩]
  | e :: rest, p, l, etag, c =>
    if e.localeName == l && e.projectName == p then
      { e with dataCrc32 := c, eTag := etag } :: rest
    else
      e :: Upsert rest p l etag c

/-- Number of records stored for a given (project, locale) pair. -/
def countPair (lst : CheckSumList) (p l : String) : Nat :=
  (lst.filter (matchesPair p l)).length

/-- Invariant: the store holds at most one record per (project, locale) pair. -/
def AtMostOnePerPair (lst : CheckSumList) : Prop :=
  ∀ p l, countPair lst p l ≤ 1

/-- Local file system content under localized_data: optional bytes per (project, locale). -/
abbrev FileMap := String → String → Option Bytes

/-- getFileCrc32 hashes the pair's local file, or yields INVALID_CRC32 when it cannot be opened. -/
def getFileCrc32 (files : FileMap) (p l : String) : Nat :=
  match files p l with
  | none => INVALID_CRC32
  | some data => crc32ChecksumIEEE data

/-- Etag (the change detector): return the stored token only when the stored
hash is distinct from INVALID_CRC32 and coincides with the current file hash. -/
def Etag (lst : CheckSumList) (files : FileMap) (p l : String) : String :=
  let origCrc32 := GetCrc32 lst p l
  let existCrc32 := getFileCrc32 files p l
  if origCrc32 ≠ INVALID_CRC32 ∧ origCrc32 = existCrc32 then GetETag lst p l else ""

/-- A remote locale descriptor with identifier and human name (source: phraseapp.Locale). -/
structure Locale where
  id : String
  name : String
deriving DecidableEq

/-- An HTTP response as far as the downloader inspects it: status code,
optional Etag header value, and body bytes. -/
structure HttpResponse where
  statusCode : Nat
  etagHeader : Option String
  body : Bytes
deriving DecidableEq

/-- The remote download endpoint for one (project id, locale id): maps the
presented cache token to a response; none models a transport failure. -/
abbrev Remote := String → Option HttpResponse

/-- Outcome of a JSON decode of downloaded content into an array of
(id, translation) entries; none models an unmarshal failure. -/
abbrev Decode := Bytes → Option (List (String × String))

/-- Result of a step that may terminate the whole process (log.Fatal / os.Exit). -/
inductive StepResult (α : Type) where
  | next (a : α)
  | fatal
deriving DecidableEq

/-- In-memory synchronization state: local files plus the checksum list. -/
structure SyncState where
  files : FileMap
  lst : CheckSumList

/-- downloadLocaleImpl: check the Etag response header first, then status 304
(not modified, returns empty content and an empty token), then any status
other than 200 is an error; a 200 response yields its body and the new token. -/
def downloadLocaleImpl (remote : Remote) (etag : String) : Except String (Bytes × String) :=
  match remote etag with
  | none => Except.error "Unable to do http request"
  | some resp =>
    match resp.etagHeader with
    | none => Except.error "Expected etag argument"
    | some newEtag =>
      if resp.statusCode = 304 then Except.ok ([], "")
      else if resp.statusCode ≠ 200 then Except.error "Error on http request"
      else Except.ok (resp.body, newEtag)

/-- Writing the locale file of one (project, locale) pair into the file map. -/
def writeFile (files : FileMap) (p l : String) (data : Bytes) : FileMap :=
  fun p' l' => if p' = p ∧ l' = l then some data else files p' l'

/-- OnDownload: write the file for the pair, decode the content (an
undecodable body terminates the process before the store is touched), then
upsert the pair's record with the new token and the content's CRC-32. -/
def OnDownload (decode : Decode) (st : SyncState) (p l newEtag : String) (data : Bytes) :
    StepResult SyncState :=
  let files' : FileMap := writeFile st.files p l data
  match decode data with
  | none => StepResult.fatal
  | some _ =>
    StepResult.next { files := files', lst := Upsert st.lst p l newEtag (crc32ChecksumIEEE data) }

/-- Observable outcome of downloadLocale for one (project, locale) pair. -/
structure LocaleOut where
  state : StepResult SyncState
  errMsg : Option String
  invoked : Bool
  etagSent : String

/-- downloadLocale: consult the change detector for a token, perform the
conditional fetch, and invoke OnDownload only on non-empty content. -/
def downloadLocale (decode : Decode) (remote : Remote) (st : SyncState) (p l : String) :
    LocaleOut :=
  let etag := Etag st.lst st.files p l
  match downloadLocaleImpl remote etag with
  | Except.error e => ⟨StepResult.next st, some e, false, etag⟩
  | Except.ok (data, newEtag) =>
    if data.length = 0 then ⟨StepResult.next st, none, false, etag⟩
    else ⟨OnDownload decode st p l newEtag data, none, true, etag⟩

/-- Configured page size (source: createConfig sets PerPage to 25). -/
def cfgPerPage : Nat := 25

/-- getLocalesAux: successive page results of the locale listing are consumed
until a page errors or returns fewer items than the page size; pages are
concatenated in order and the number of page requests is returned.  A page
beyond the supplied list models a remote answering with an empty page. -/
def getLocalesAux (perPage : Nat) :
    List (Except String (List Locale)) → Except String (List Locale) × Nat
  | [] => (Except.ok [], 1)
  | r :: rest =>
    match r with
    | Except.error e => (Except.error e, 1)
    | Except.ok pg =>
      if pg.length < perPage then (Except.ok pg, 1)
      else
        match getLocalesAux perPage rest with
        | (Except.error e, n) => (Except.error e, n + 1)
        | (Except.ok tailLocs, n) => (Except.ok (pg ++ tailLocs), n + 1)

/-- The whole remote service: per project id the successive locale-listing
pages, per (project id, locale id) a download endpoint, and per
(project id, locale name) an upload response status (none = transport failure). -/
structure RemoteEnv where
  pages : String → List (Except String (List Locale))
  download : String → String → Remote
  uploadResp : String → String → Option Nat

/-- Accumulated observable state of one orchestrator run: synchronization
state, reported errors, cache tokens presented to the remote, pairs actually
downloaded, pairs uploaded, upload entries and projects reached, remote call
count, and whether the process has terminated (log.Fatal / fatal handler). -/
structure SweepSt where
  sync : SyncState
  errs : List String
  etags : List String
  downloaded : List (String × String)
  uploaded : List (String × String)
  upVisited : List String
  visited : List String
  calls : Nat
  dead : Bool

/-- uploadLocaleImpl's remote interaction: a transport failure or a status
other than 201 is an error; otherwise the upload succeeded. -/
def uploadLocaleImpl (status : Option Nat) : Option String :=
  match status with
  | none => some "Unable to do http request"
  | some code => if code ≠ 201 then some "Error on http request" else none

/-- Association-list lookup of a project id by project name
(source: ctx.Projects()[project]). -/
def lookupProject : List (String × String) → String → Option String
  | [], _ => none
  | (name, pid) :: rest, p => if name = p then some pid else lookupProject rest p

/-- Inner upload loop over the buffers of one entry; when the error handler
is fatal the first failed upload terminates the run. -/
def runUploadBufs (fatal : Bool) (env : RemoteEnv) (pid pname lang : String) :
    List Bytes → SweepSt → SweepSt
  | [], s => s
  | _buf :: rest, s =>
    if s.dead then s
    else
      let s₁ := { s with calls := s.calls + 1 }
      match uploadLocaleImpl (env.uploadResp pid lang) with
      | some e =>
        let s₂ := { s₁ with errs := s₁.errs ++ [e] }
        if fatal then { s₂ with dead := true }
        else runUploadBufs fatal env pid pname lang rest s₂
      | none =>
        runUploadBufs fatal env pid pname lang rest
          { s₁ with uploaded := s₁.uploaded ++ [(pname, lang)] }

/-- Upload sweep over the configured entries; an unresolvable project name is
reported and, with a non-fatal handler, the remaining entries continue. -/
def runUpload (fatal : Bool) (env : RemoteEnv) (projects : List (String × String)) :
    List ((String × String) × List Bytes) → SweepSt → SweepSt
  | [], s => s
  | ((pname, lang), bufs) :: rest, s =>
    if s.dead then s
    else
      let s₀ := { s with upVisited := s.upVisited ++ [pname] }
      match lookupProject projects pname with
      | none =>
        let s₁ := { s₀ with errs := s₀.errs ++ ["Config is broken"] }
        if fatal then { s₁ with dead := true }
        else runUpload fatal env projects rest s₁
      | some pid =>
        runUpload fatal env projects rest (runUploadBufs fatal env pid pname lang bufs s₀)

/-- Download loop over the locales of one project. -/
def runLocales (fatal : Bool) (decode : Decode) (env : RemoteEnv) (pname pid : String) :
    List Locale → SweepSt → SweepSt
  | [], s => s
  | loc :: rest, s =>
    if s.dead then s
    else
      let r := downloadLocale decode (env.download pid loc.id) s.sync pname loc.name
      let s₁ := { s with calls := s.calls + 1, etags := s.etags ++ [r.etagSent] }
      match r.state with
      | StepResult.fatal => { s₁ with dead := true }
      | StepResult.next syncNext =>
        let dl := if r.invoked then s₁.downloaded ++ [(pname, loc.name)] else s₁.downloaded
        let s₂ := { s₁ with sync := syncNext, downloaded := dl }
        match r.errMsg with
        | some e =>
          let s₃ := { s₂ with errs := s₂.errs ++ [e] }
          if fatal then { s₃ with dead := true }
          else runLocales fatal decode env pname pid rest s₃
        | none => runLocales fatal decode env pname pid rest s₂

/-- Download sweep over all projects: list the project's locales (a listing
failure is reported for that project only), then download each locale. -/
def runProjects (fatal : Bool) (decode : Decode) (env : RemoteEnv) :
    List (String × String) → SweepSt → SweepSt
  | [], s => s
  | (pname, pid) :: rest, s =>
    if s.dead then s
    else
      let s₀ := { s with visited := s.visited ++ [pname] }
      let pr := getLocalesAux cfgPerPage (env.pages pid)
      let s₁ := { s₀ with calls := s₀.calls + pr.2 }
      match pr.1 with
      | Except.error e =>
        let s₂ := { s₁ with errs := s₁.errs ++ [e] }
        if fatal then { s₂ with dead := true }
        else runProjects fatal decode env rest s₂
      | Except.ok locs =>
        runProjects fatal decode env rest (runLocales fatal decode env pname pid locs s₁)

/-- The (project name, locale name) pairs the download sweep visits for one
project: its aggregated locale listing when that listing succeeds. -/
def projectPairs (env : RemoteEnv) (pname pid : String) : List (String × String) :=
  match (getLocalesAux cfgPerPage (env.pages pid)).1 with
  | Except.error _ => []
  | Except.ok locs => locs.map (fun loc => (pname, loc.name))

/-- All pairs the download sweep visits, in visiting order. -/
def sweepPairs (env : RemoteEnv) : List (String × String) → List (String × String)
  | [] => []
  | (pname, pid) :: rest => projectPairs env pname pid ++ sweepPairs env rest

/-- Initial sweep state over a file map and a checksum list. -/
def initialSweep (files : FileMap) (lst : CheckSumList) : SweepSt :=
  { sync := { files := files, lst := lst }, errs := [], etags := [], downloaded := [],
    uploaded := [], upVisited := [], visited := [], calls := 0, dead := false }

/-- Minimum interval between runs, in nanoseconds (source: GLOBAL_RUN_DELAY = 2e9). -/
def GLOBAL_RUN_DELAY : Int := 2000000000

/-- The work of processLocales past the rate gate: clear the localized_data
directory (its contents map to the empty file map), upload, then download. -/
def processLocalesWork (fatal : Bool) (decode : Decode) (env : RemoteEnv)
    (uploadEntries : List ((String × String) × List Bytes))
    (projects : List (String × String)) (ri : RunInfo) : SweepSt :=
  let s₀ := initialSweep (fun _ _ => none) ri.checkSumList
  let s₁ := runUpload fatal env projects uploadEntries s₀
  runProjects fatal decode env projects s₁

/-- Observable outcome of one whole run (after readRunInfo): remote call
count, whether the run-record file was rewritten, what was persisted, and
the final sweep state. -/
structure ProgramOut where
  calls : Nat
  fileWritten : Bool
  persisted : Option RunInfo
  sweep : SweepSt

/-- One orchestrator run from a loaded run record: the rate gate exits the
process when the elapsed time is within GLOBAL_RUN_DELAY (so writeRunInfo
never executes); otherwise the sweeps run, the last run time is set and the
run record is rewritten, unless a fatal path terminated the process first. -/
def mainModel (now now₂ : Int) (fatal : Bool) (decode : Decode) (env : RemoteEnv)
    (uploadEntries : List ((String × String) × List Bytes))
    (projects : List (String × String)) (ri : RunInfo) : ProgramOut :=
  if now - ri.lastRunTime ≤ GLOBAL_RUN_DELAY then
    { calls := 0, fileWritten := false, persisted := none,
      sweep := initialSweep (fun _ _ => none) ri.checkSumList }
  else
    let s := processLocalesWork fatal decode env uploadEntries projects ri
    if s.dead then { calls := s.calls, fileWritten := false, persisted := none, sweep := s }
    else
      { calls := s.calls, fileWritten := true,
        persisted := some { checkSumList := s.sync.lst, lastRunTime := now₂ }, sweep := s }

/-- Outcome of readRunInfo: either the process terminated (log.Fatal on a
read failure), or a run record was produced, together with whether the
persisted file was scheduled for removal. -/
inductive ReadResult where
  | fatal
  | ok (ri : RunInfo) (removedFile : Bool)
deriving DecidableEq

/-- readRunInfo: an unopenable file yields the empty record; a read failure
of an opened file terminates the process; an unparsable content yields the
empty record and removes the persisted file. -/
def readRunInfo (openOk : Bool) (readRes : Option Bytes)
    (parse : Bytes → Option RunInfo) : ReadResult :=
  if !openOk then ReadResult.ok {} false
  else
    match readRes with
    | none => ReadResult.fatal
    | some buff =>
      match parse buff with
      | none => ReadResult.ok {} true
      | some ri => ReadResult.ok ri false

/-! Concrete stores, file systems and remotes used to evaluate the theorems
below on explicit inputs. -/

/-- Checksum store with a record whose stored hash is the INVALID_CRC32
sentinel itself while its token is non-empty. -/
def C1lst : CheckSumList := [⟨0, "x", "p", "l"⟩]

/-- File system in which every file is present with empty content, whose
CRC-32 is 0 = INVALID_CRC32. -/
def C1files : FileMap := fun _ _ => some []

/-- Empty synchronization state: no local files, no checksum records. -/
def stEmpty : SyncState := ⟨fun _ _ => none, []⟩

/-- The post state of one downloadLocale call (the unchanged input state
when the call terminated the process). -/
def afterState (r : LocaleOut) (st : SyncState) : SyncState :=
  match r.state with
  | StepResult.next s => s
  | StepResult.fatal => st

/-- Remote that always answers 304 with an Etag header present. -/
def C3remote : Remote := fun _ => some { statusCode := 304, etagHeader := some "e", body := [5] }

/-- Remote answering 200 with a fresh token but an empty body. -/
def C4remote : Remote := fun _ => some { statusCode := 200, etagHeader := some "newtag", body := [] }

/-- Remote answering 200 with a fresh token and a non-empty body. -/
def C4remoteFull : Remote :=
  fun _ => some { statusCode := 200, etagHeader := some "t9", body := [2, 2] }

/-- A listing page with the given number of identical locale entries. -/
def C5page (n : Nat) : List Locale := List.replicate n ⟨"i", "n"⟩

/-- Remote answering 304 without any Etag header. -/
def C9remote : Remote := fun _ => some { statusCode := 304, etagHeader := none, body := [] }

/-- A decoder for which every body is a well-formed, empty JSON array. -/
def decodeAll : Decode := fun _ => some []

/-- A remote service that answers nothing at all: no pages, transport
failures on download, transport failures on upload. -/
def envQuiet : RemoteEnv :=
  { pages := fun _ => []
    download := fun _ _ _ => none
    uploadResp := fun _ _ => none }

/-- Remote service for which project id idA fails its locale listing while
every other project lists one locale "en" and serves a 200 download. -/
def C8env : RemoteEnv :=
  { pages := fun pid =>
      if pid = "idA" then [Except.error "boom"] else [Except.ok [⟨"en-id", "en"⟩]]
    download := fun _ _ => fun _ => some { statusCode := 200, etagHeader := some "t1", body := [1, 2] }
    uploadResp := fun _ _ => some 201 }

/-- Two projects, the first of which hits the listing failure of C8env. -/
def C8projects : List (String × String) := [("A", "idA"), ("B", "idB")]

/-- Clean sweep state: empty directory tree and empty checksum store. -/
def C8start : SweepSt := initialSweep (fun _ _ => none) []

/-! Helper lemmas about the checksum store. -/

theorem countPair_nil (p l : String) : countPair [] p l = 0 := rfl

theorem countPair_cons (e : CheckSum) (rest : CheckSumList) (p l : String) :
    countPair (e :: rest) p l =
      (if matchesPair p l e then 1 else 0) + countPair rest p l := by
  simp only [countPair, List.filter]
  cases h : matchesPair p l e <;> simp [List.length_cons, Nat.add_comm]

theorem matchesPair_upserted (p l p' l' et : String) (c : Nat) :
    matchesPair p' l' (⟨c, et, p, l⟩ : CheckSum) = (decide (l = l') && decide (p = p')) := by
  by_cases h1 : l = l' <;> by_cases h2 : p = p' <;> simp [matchesPair, h1, h2]

theorem GetETag_Upsert (lst : CheckSumList) (p l et : String) (c : Nat) :
    GetETag (Upsert lst p l et c) p l = et := by
  induction lst with
  | nil => simp [Upsert, GetETag]
  | cons e rest ih =>
    cases h : (e.localeName == l && e.projectName == p) with
    | true => simp [Upsert, GetETag, h]
    | false => simp [Upsert, GetETag, h, ih]

theorem GetCrc32_Upsert (lst : CheckSumList) (p l et : String) (c : Nat) :
    GetCrc32 (Upsert lst p l et c) p l = c := by
  induction lst with
  | nil => simp [Upsert, GetCrc32]
  | cons e rest ih =>
    cases h : (e.localeName == l && e.projectName == p) with
    | true => simp [Upsert, GetCrc32, h]
    | false => simp [Upsert, GetCrc32, h, ih]

theorem countPair_Upsert_self (lst : CheckSumList) (p l et : String) (c : Nat) :
    countPair (Upsert lst p l et c) p l =
      if countPair lst p l = 0 then 1 else countPair lst p l := by
  induction lst with
  | nil => simp [Upsert, countPair_cons, countPair_nil, matchesPair]
  | cons e rest ih =>
    by_cases h : (e.localeName == l && e.projectName == p) = true
    · simp only [Upsert, if_pos h]
      rw [countPair_cons, countPair_cons]
      have hm : matchesPair p l ({ e with dataCrc32 := c, eTag := et } : CheckSum) = true := h
      have hm' : matchesPair p l e = true := h
      simp [hm, hm']
    · simp only [Upsert, if_neg h]
      rw [countPair_cons, countPair_cons, ih]
      have hm : matchesPair p l e = false := by
        simp only [matchesPair]
        exact Bool.not_eq_true _ ▸ (by simpa using h)
      simp [hm]

theorem countPair_Upsert_other (lst : CheckSumList) (p l p' l' et : String) (c : Nat)
    (h : ¬(l' = l ∧ p' = p)) :
    countPair (Upsert lst p l et c) p' l' = countPair lst p' l' := by
  induction lst with
  | nil =>
    rw [Upsert, countPair_cons, countPair_nil, matchesPair_upserted]
    have hfalse : (decide (l = l') && decide (p = p')) = false := by
      rcases Decidable.em (l = l') with h1 | h1
      · rcases Decidable.em (p = p') with h2 | h2
        · exact absurd ⟨h1.symm, h2.symm⟩ h
        · simp [h2]
      · simp [h1]
    simp [hfalse]
  | cons e rest ih =>
    by_cases hh : (e.localeName == l && e.projectName == p) = true
    · simp only [Upsert, if_pos hh]
      rw [countPair_cons, countPair_cons]
      have : matchesPair p' l' ({ e with dataCrc32 := c, eTag := et } : CheckSum) =
          matchesPair p' l' e := by simp [matchesPair]
      rw [this]
    · simp only [Upsert, if_neg hh]
      rw [countPair_cons, countPair_cons, ih]

theorem AtMostOnePerPair_Upsert (lst : CheckSumList) (p l et : String) (c : Nat)
    (h : AtMostOnePerPair lst) : AtMostOnePerPair (Upsert lst p l et c) := by
  intro p' l'
  by_cases hpl : l' = l ∧ p' = p
  · obtain ⟨h1, h2⟩ := hpl
    subst h1; subst h2
    rw [countPair_Upsert_self]
    have := h p' l'
    split <;> omega
  · rw [countPair_Upsert_other lst p l p' l' et c hpl]
    exact h p' l'

theorem length_Upsert (lst : CheckSumList) (p l et : String) (c : Nat) :
    (Upsert lst p l et c).length =
      if countPair lst p l = 0 then lst.length + 1 else lst.length := by
  induction lst with
  | nil => simp [Upsert, countPair_nil]
  | cons e rest ih =>
    cases h : (e.localeName == l && e.projectName == p) with
    | true =>
      have hm : matchesPair p l e = true := h
      simp [Upsert, h, countPair_cons, hm]
    | false =>
      have hm : matchesPair p l e = false := h
      simp [Upsert, h, countPair_cons, hm, ih]
      split <;> simp [*]

theorem writeFile_same (files : FileMap) (p l : String) (data : Bytes) :
    writeFile files p l data p l = some data := by
  simp [writeFile]

theorem writeFile_other (files : FileMap) (p l p' l' : String) (data : Bytes)
    (h : ¬(p' = p ∧ l' = l)) : writeFile files p l data p' l' = files p' l' := by
  simp only [writeFile, if_neg h]

theorem Etag_file_absent (lst : CheckSumList) (files : FileMap) (p l : String)
    (h : files p l = none) : Etag lst files p l = "" := by
  simp only [Etag, getFileCrc32, h]
  split
  · next hc => exact absurd hc.2 hc.1
  · rfl

/-! Claim C1 (change detector). -/

/-- C1, counterexample: a stored record with hash INVALID_CRC32 and token
"x" together with a present local file whose hash is also INVALID_CRC32
(the empty file): the stored hash matches the hash of the currently-present
local file, yet Etag returns the empty string rather than the stored token
"x", so the claimed "returns the stored token exactly when the hashes
match" fails on this input. -/
theorem C1_counterexample :
    GetCrc32 C1lst "p" "l" = getFileCrc32 C1files "p" "l" ∧
    GetETag C1lst "p" "l" = "x" ∧
    Etag C1lst C1files "p" "l" = "" := by
  refine ⟨by decide, by decide, by decide⟩

/-- C1 (amended): Etag returns the stored token exactly when the stored
hash is distinct from the INVALID_CRC32 sentinel and matches the hash of
the currently-present local file; in every other case (including a stored
hash equal to the sentinel, a missing record, or an absent local file,
where both hashes equal INVALID_CRC32) it returns the empty string. -/
theorem C1_Etag_amended (lst : CheckSumList) (files : FileMap) (p l : String) :
    (GetCrc32 lst p l ≠ INVALID_CRC32 ∧ GetCrc32 lst p l = getFileCrc32 files p l →
      Etag lst files p l = GetETag lst p l) ∧
    (¬(GetCrc32 lst p l ≠ INVALID_CRC32 ∧ GetCrc32 lst p l = getFileCrc32 files p l) →
      Etag lst files p l = "") := by
  constructor
  · intro h
    simp only [Etag, if_pos h]
  · intro h
    simp only [Etag, if_neg h]

/-- C1 witness: both branches of the amended statement evaluated at
concrete inputs. -/
theorem C1_Etag_amended_witness :
    Etag [⟨5, "t", "p", "l"⟩] (fun _ _ => some [1, 1]) "p" "l" = "" ∧
    Etag [⟨crc32ChecksumIEEE [7], "t", "p", "l"⟩] (fun _ _ => some [7]) "p" "l" =
      GetETag [⟨crc32ChecksumIEEE [7], "t", "p", "l"⟩] "p" "l" := by
  constructor
  · exact (C1_Etag_amended [⟨5, "t", "p", "l"⟩] (fun _ _ => some [1, 1]) "p" "l").2 (by decide)
  · exact (C1_Etag_amended [⟨crc32ChecksumIEEE [7], "t", "p", "l"⟩]
      (fun _ _ => some [7]) "p" "l").1 (by constructor <;> decide)

/-! Claim C2 (checksum store after a successful download). -/

/-- C2, counterexample: a successful download whose non-empty content does
not decode as a JSON array terminates the process (log.Fatalln in
OnDownload) before the checksum list is updated, so after this successful
download the list does not hold a record for the pair. -/
theorem C2_counterexample :
    OnDownload (fun _ => none) ⟨fun _ _ => none, []⟩ "p" "l" "t" [1] = StepResult.fatal := rfl

/-- C2 (amended): after a successful download with non-empty content that
decodes as a JSON array, the checksum list holds exactly one record for the
pair, whose hash equals the CRC-32 of the freshly written file content and
whose token equals the newly returned ETag; Upsert preserves the
at-most-one-record-per-pair invariant and re-running Upsert for the same
pair never creates a duplicate record. -/
theorem C2_OnDownload_amended (decode : Decode) (st : SyncState) (p l ne ne₂ : String)
    (data : Bytes) (es : List (String × String)) (c₂ : Nat)
    (_hne : data ≠ []) (hdec : decode data = some es) (hone : AtMostOnePerPair st.lst) :
    OnDownload decode st p l ne data =
      StepResult.next
        { files := writeFile st.files p l data
          lst := Upsert st.lst p l ne (crc32ChecksumIEEE data) } ∧
    countPair (Upsert st.lst p l ne (crc32ChecksumIEEE data)) p l = 1 ∧
    GetCrc32 (Upsert st.lst p l ne (crc32ChecksumIEEE data)) p l = crc32ChecksumIEEE data ∧
    GetETag (Upsert st.lst p l ne (crc32ChecksumIEEE data)) p l = ne ∧
    getFileCrc32 (writeFile st.files p l data) p l = crc32ChecksumIEEE data ∧
    AtMostOnePerPair (Upsert st.lst p l ne (crc32ChecksumIEEE data)) ∧
    (Upsert (Upsert st.lst p l ne (crc32ChecksumIEEE data)) p l ne₂ c₂).length =
      (Upsert st.lst p l ne (crc32ChecksumIEEE data)).length := by
  have hcount : countPair (Upsert st.lst p l ne (crc32ChecksumIEEE data)) p l = 1 := by
    rw [countPair_Upsert_self]
    have := hone p l
    split <;> omega
  refine ⟨?_, hcount, GetCrc32_Upsert _ _ _ _ _, GetETag_Upsert _ _ _ _ _, ?_, ?_, ?_⟩
  · simp only [OnDownload, hdec]
  · simp only [getFileCrc32, writeFile_same]
  · exact AtMostOnePerPair_Upsert _ _ _ _ _ hone
  · rw [length_Upsert, if_neg (by omega)]

/-- C2 witness: the amended statement evaluated at a concrete store, file
system and download. -/
theorem C2_OnDownload_amended_witness :
    countPair (Upsert [] "p" "l" "t" (crc32ChecksumIEEE [1])) "p" "l" = 1 ∧
    GetETag (Upsert [] "p" "l" "t" (crc32ChecksumIEEE [1])) "p" "l" = "t" := by
  have h := C2_OnDownload_amended (fun _ => some []) ⟨fun _ _ => none, []⟩ "p" "l" "t" "t2"
    [1] [] 7 (by decide) rfl (by intro p l; simp [countPair])
  exact ⟨h.2.1, h.2.2.2.1⟩

/-! Claims C3, C4 (conditional download behaviour). -/

/-- C3: when the remote answers 304 (not modified) relative to the supplied
cache token, downloadLocale leaves the synchronization state untouched and
never invokes OnDownload, so no file is written and no record upserted. -/
theorem C3_not_modified (decode : Decode) (remote : Remote) (st : SyncState) (p l : String)
    (resp : HttpResponse)
    (hresp : remote (Etag st.lst st.files p l) = some resp)
    (h304 : resp.statusCode = 304) :
    (downloadLocale decode remote st p l).state = StepResult.next st ∧
    (downloadLocale decode remote st p l).invoked = false := by
  simp only [downloadLocale, downloadLocaleImpl, hresp]
  cases hh : resp.etagHeader with
  | none => simp [hh]
  | some ne => simp [hh, h304]

/-- C3 witness: the theorem evaluated on a concrete 304 response. -/
theorem C3_not_modified_witness :
    (downloadLocale (fun _ => some []) C3remote stEmpty "p" "l").state =
      StepResult.next stEmpty ∧
    (downloadLocale (fun _ => some []) C3remote stEmpty "p" "l").invoked = false :=
  C3_not_modified (fun _ => some []) C3remote stEmpty "p" "l" ⟨304, some "e", [5]⟩ rfl rfl

/-- C4, counterexample: a successful (200) download whose body is empty
returns the new cache token "newtag" from downloadLocaleImpl, yet
downloadLocale does not invoke OnDownload and the state is unchanged, so
the new token is not persisted: the claimed "any successful (200) download
returns its content together with the new cache token, which is then
persisted" fails on this input. -/
theorem C4_counterexample :
    C4remote (Etag stEmpty.lst stEmpty.files "p" "l") =
      some { statusCode := 200, etagHeader := some "newtag", body := [] } ∧
    downloadLocaleImpl C4remote (Etag stEmpty.lst stEmpty.files "p" "l") =
      Except.ok ([], "newtag") ∧
    (downloadLocale (fun _ => some []) C4remote stEmpty "p" "l").invoked = false ∧
    (downloadLocale (fun _ => some []) C4remote stEmpty "p" "l").state =
      StepResult.next stEmpty ∧
    GetETag stEmpty.lst "p" "l" ≠ "newtag" := by
  refine ⟨rfl, rfl, rfl, rfl, by decide⟩

/-- C4 (amended): downloadLocaleImpl distinguishes a 304 (not modified,
yielding empty content and an empty token with no further action) from a
200 with a new token; the new token is persisted into the checksum store
exactly when the 200 body is non-empty (and decodes), while a 200 with an
empty body is dropped with no further action, its token included. -/
theorem C4_download_amended (decode : Decode) (remote : Remote) (st : SyncState)
    (p l ne : String) (resp : HttpResponse) (es : List (String × String))
    (hresp : remote (Etag st.lst st.files p l) = some resp)
    (hne : resp.etagHeader = some ne)
    (hdec : decode resp.body = some es) :
    (resp.statusCode = 304 →
      downloadLocaleImpl remote (Etag st.lst st.files p l) = Except.ok ([], "")) ∧
    (resp.statusCode = 200 →
      downloadLocaleImpl remote (Etag st.lst st.files p l) = Except.ok (resp.body, ne)) ∧
    (resp.statusCode = 200 → resp.body ≠ [] →
      (downloadLocale decode remote st p l).invoked = true ∧
      GetETag (afterState (downloadLocale decode remote st p l) st).lst p l = ne) ∧
    (resp.statusCode = 200 → resp.body = [] →
      (downloadLocale decode remote st p l).invoked = false ∧
      (downloadLocale decode remote st p l).state = StepResult.next st) := by
  refine ⟨?_, ?_, ?_, ?_⟩
  · intro h
    simp [downloadLocaleImpl, hresp, hne, h]
  · intro h
    simp [downloadLocaleImpl, hresp, hne, h]
  · intro h hb
    have hlen : ¬(resp.body.length = 0) := by
      simpa [List.length_eq_zero] using hb
    constructor
    · simp [downloadLocale, downloadLocaleImpl, hresp, hne, h, hlen]
    · simp [downloadLocale, downloadLocaleImpl, hresp, hne, h, hlen, afterState,
        OnDownload, hdec, GetETag_Upsert]
  · intro h hb
    constructor <;> simp [downloadLocale, downloadLocaleImpl, hresp, hne, h, hb]

/-- C4 witness: on a 200 response with non-empty body the new token ends up
in the store. -/
theorem C4_download_amended_witness :
    (downloadLocale (fun _ => some []) C4remoteFull stEmpty "p" "l").invoked = true ∧
    GetETag (afterState (downloadLocale (fun _ => some []) C4remoteFull stEmpty "p" "l")
      stEmpty).lst "p" "l" = "t9" :=
  (C4_download_amended (fun _ => some []) C4remoteFull stEmpty "p" "l" "t9"
    ⟨200, some "t9", [2, 2]⟩ [] rfl rfl rfl).2.2.1 rfl (by decide)

/-! Claim C5 (locale-listing pagination). -/

/-- C5: the listing paginates until a page returns fewer items than the
page size, aggregates all pages in order, and requests no page after the
short one: with pages of sizes 25, 25 and 10 under page size 25, exactly
three requests are made (whatever further pages would answer) and the
aggregate has the 60 entries in order. -/
theorem C5_pagination (p1 p2 p3 : List Locale) (rest : List (Except String (List Locale)))
    (h1 : p1.length = 25) (h2 : p2.length = 25) (h3 : p3.length = 10) :
    getLocalesAux 25 (Except.ok p1 :: Except.ok p2 :: Except.ok p3 :: rest) =
      (Except.ok (p1 ++ p2 ++ p3), 3) ∧
    (p1 ++ p2 ++ p3).length = 60 := by
  constructor
  · simp [getLocalesAux, h1, h2, h3, List.append_assoc]
  · simp [h1, h2, h3]

/-- C5 witness: the theorem evaluated on concrete pages of sizes 25, 25, 10. -/
theorem C5_pagination_witness :
    getLocalesAux 25
        (Except.ok (C5page 25) :: Except.ok (C5page 25) :: Except.ok (C5page 10) :: []) =
      (Except.ok (C5page 25 ++ C5page 25 ++ C5page 10), 3) :=
  (C5_pagination (C5page 25) (C5page 25) (C5page 10) []
    (by simp [C5page]) (by simp [C5page]) (by simp [C5page])).1

/-! Claim C7 (loading the persisted run record). -/

/-- C7, counterexample: when the persisted file opens but reading it fails,
readRunInfo terminates the program (log.Fatal), so the claimed "never
terminates the program on any failure to open, read, or parse" fails on
this input. -/
theorem C7_counterexample :
    readRunInfo true none (fun _ => none) = ReadResult.fatal := rfl

/-- C7 (amended): a failure to open the persisted file, or to parse its
contents, yields an empty run record without terminating the program (the
unparsable file is additionally removed); a failure while reading the
opened file, however, terminates the program. -/
theorem C7_readRunInfo_amended (readRes : Option Bytes) (parse : Bytes → Option RunInfo)
    (buff : Bytes) (hpn : parse buff = none) :
    readRunInfo false readRes parse = ReadResult.ok {} false ∧
    readRunInfo true (some buff) parse = ReadResult.ok {} true ∧
    readRunInfo true none parse = ReadResult.fatal := by
  refine ⟨rfl, ?_, rfl⟩
  simp [readRunInfo, hpn]

/-- C7 witness: the amended statement evaluated at a concrete unopenable
and a concrete unparsable persisted file. -/
theorem C7_readRunInfo_amended_witness :
    readRunInfo false none (fun _ => none) = ReadResult.ok {} false ∧
    readRunInfo true (some [1]) (fun _ => none) = ReadResult.ok {} true :=
  ⟨(C7_readRunInfo_amended none (fun _ => none) [1] rfl).1,
   (C7_readRunInfo_amended none (fun _ => none) [1] rfl).2.1⟩

/-! Claim C9 (missing ETag response header). -/

/-- C9: a download response without an Etag header makes downloadLocaleImpl
return an error, whatever the status code; it is never treated as an
unchanged resource. -/
theorem C9_missing_etag (remote : Remote) (etag : String) (resp : HttpResponse)
    (hresp : remote etag = some resp) (hh : resp.etagHeader = none) :
    downloadLocaleImpl remote etag = Except.error "Expected etag argument" := by
  simp [downloadLocaleImpl, hresp, hh]

/-- C9 witness: even a 304 response is an error when the Etag header is
absent. -/
theorem C9_missing_etag_witness :
    downloadLocaleImpl C9remote "tok" = Except.error "Expected etag argument" :=
  C9_missing_etag C9remote "tok" ⟨304, none, []⟩ rfl rfl

/-! Claim C6 (rate gate). -/

/-- C6: when the elapsed time since the persisted last run time is within
GLOBAL_RUN_DELAY, the run exits at the rate gate: no remote call of any
kind is performed and the persisted run-record file is not rewritten at
all. -/
theorem C6_rate_gate (now now₂ : Int) (fatal : Bool) (decode : Decode) (env : RemoteEnv)
    (uploadEntries : List ((String × String) × List Bytes))
    (projects : List (String × String)) (ri : RunInfo)
    (h : now - ri.lastRunTime ≤ GLOBAL_RUN_DELAY) :
    (mainModel now now₂ fatal decode env uploadEntries projects ri).calls = 0 ∧
    (mainModel now now₂ fatal decode env uploadEntries projects ri).fileWritten = false ∧
    (mainModel now now₂ fatal decode env uploadEntries projects ri).persisted = none := by
  rw [mainModel, if_pos h]
  exact ⟨rfl, rfl, rfl⟩

/-- C6 witness: a run one second after the persisted run time does nothing,
against a remote that would otherwise be contacted. -/
theorem C6_rate_gate_witness :
    (mainModel 1000000000 5000000000 true decodeAll C8env [] C8projects {}).calls = 0 ∧
    (mainModel 1000000000 5000000000 true decodeAll C8env [] C8projects {}).fileWritten = false ∧
    (mainModel 1000000000 5000000000 true decodeAll C8env [] C8projects {}).persisted = none :=
  C6_rate_gate 1000000000 5000000000 true decodeAll C8env [] C8projects {} (by decide)

/-! Frame and continuation lemmas about the sweep loops. -/

theorem runUploadBufs_frame (fatal : Bool) (env : RemoteEnv) (pid pname lang : String)
    (bufs : List Bytes) (s : SweepSt) :
    (runUploadBufs fatal env pid pname lang bufs s).sync = s.sync ∧
    (runUploadBufs fatal env pid pname lang bufs s).etags = s.etags ∧
    (runUploadBufs fatal env pid pname lang bufs s).upVisited = s.upVisited ∧
    (runUploadBufs fatal env pid pname lang bufs s).visited = s.visited := by
  induction bufs generalizing s with
  | nil => exact ⟨rfl, rfl, rfl, rfl⟩
  | cons b rest ih =>
    by_cases hd : s.dead = true
    · rw [runUploadBufs, if_pos hd]
      exact ⟨rfl, rfl, rfl, rfl⟩
    · rw [runUploadBufs, if_neg hd]
      cases hu : uploadLocaleImpl (env.uploadResp pid lang) with
      | some e =>
        cases fatal with
        | true => exact ⟨rfl, rfl, rfl, rfl⟩
        | false => exact ih _
      | none => exact ih _

theorem runUploadBufs_dead (env : RemoteEnv) (pid pname lang : String)
    (bufs : List Bytes) (s : SweepSt) :
    (runUploadBufs false env pid pname lang bufs s).dead = s.dead := by
  induction bufs generalizing s with
  | nil => rfl
  | cons b rest ih =>
    by_cases hd : s.dead = true
    · rw [runUploadBufs, if_pos hd]
    · rw [runUploadBufs, if_neg hd]
      cases hu : uploadLocaleImpl (env.uploadResp pid lang) with
      | some e => exact ih _
      | none => exact ih _

theorem runUpload_frame (fatal : Bool) (env : RemoteEnv) (projects : List (String × String))
    (entries : List ((String × String) × List Bytes)) (s : SweepSt) :
    (runUpload fatal env projects entries s).sync = s.sync ∧
    (runUpload fatal env projects entries s).etags = s.etags ∧
    (runUpload fatal env projects entries s).visited = s.visited := by
  induction entries generalizing s with
  | nil => exact ⟨rfl, rfl, rfl⟩
  | cons en rest ih =>
    obtain ⟨⟨pname, lang⟩, bufs⟩ := en
    by_cases hd : s.dead = true
    · rw [runUpload, if_pos hd]
      exact ⟨rfl, rfl, rfl⟩
    · rw [runUpload, if_neg hd]
      cases hl : lookupProject projects pname with
      | none =>
        cases fatal with
        | true => exact ⟨rfl, rfl, rfl⟩
        | false => exact ih _
      | some pid =>
        have hb := runUploadBufs_frame fatal env pid pname lang bufs
          { s with upVisited := s.upVisited ++ [pname] }
        have hr := ih (runUploadBufs fatal env pid pname lang bufs
          { s with upVisited := s.upVisited ++ [pname] })
        exact ⟨hr.1.trans hb.1, hr.2.1.trans hb.2.1, hr.2.2.trans hb.2.2.2⟩

theorem runUpload_continues (env : RemoteEnv) (projects : List (String × String))
    (entries : List ((String × String) × List Bytes)) (s : SweepSt)
    (hs : s.dead = false) :
    (runUpload false env projects entries s).dead = false ∧
    (runUpload false env projects entries s).upVisited =
      s.upVisited ++ entries.map (fun en => en.1.1) := by
  induction entries generalizing s with
  | nil => exact ⟨hs, by simp [runUpload]⟩
  | cons en rest ih =>
    obtain ⟨⟨pname, lang⟩, bufs⟩ := en
    have hd : ¬(s.dead = true) := by simp [hs]
    rw [runUpload, if_neg hd]
    cases hl : lookupProject projects pname with
    | none =>
      have hr := ih ({ s with
        upVisited := s.upVisited ++ [pname]
        errs := s.errs ++ ["Config is broken"] } : SweepSt) hs
      refine ⟨hr.1, hr.2.trans ?_⟩
      simp
    | some pid =>
      have hdead : (runUploadBufs false env pid pname lang bufs
          { s with upVisited := s.upVisited ++ [pname] }).dead = false :=
        (runUploadBufs_dead env pid pname lang bufs
          { s with upVisited := s.upVisited ++ [pname] }).trans hs
      refine ⟨(ih _ hdead).1, ((ih _ hdead).2).trans ?_⟩
      rw [(runUploadBufs_frame false env pid pname lang bufs
        { s with upVisited := s.upVisited ++ [pname] }).2.2.1]
      simp

theorem downloadLocale_not_fatal (decode : Decode) (remote : Remote) (st : SyncState)
    (p l : String) (hdec : ∀ b, decode b ≠ none) :
    (downloadLocale decode remote st p l).state ≠ StepResult.fatal := by
  simp only [downloadLocale]
  cases hi : downloadLocaleImpl remote (Etag st.lst st.files p l) with
  | error e => simp
  | ok v =>
    obtain ⟨data, ne⟩ := v
    by_cases hl : data.length = 0
    · simp [hl]
    · simp only [hl, if_false, OnDownload]
      cases hdd : decode data with
      | none => exact absurd hdd (hdec data)
      | some es => simp [hdd]

theorem runLocales_dead (decode : Decode) (env : RemoteEnv) (pname pid : String)
    (locs : List Locale) (s : SweepSt) (hdec : ∀ b, decode b ≠ none) :
    (runLocales false decode env pname pid locs s).dead = s.dead := by
  induction locs generalizing s with
  | nil => rfl
  | cons loc rest ih =>
    by_cases hd : s.dead = true
    · rw [runLocales, if_pos hd]
    · simp only [runLocales]
      rw [if_neg hd]
      cases hst : (downloadLocale decode (env.download pid loc.id) s.sync pname loc.name).state with
      | fatal => exact absurd hst (downloadLocale_not_fatal _ _ _ _ _ hdec)
      | next syncNext =>
        cases he : (downloadLocale decode (env.download pid loc.id) s.sync pname loc.name).errMsg with
        | some e => exact ih _
        | none => exact ih _

theorem runLocales_visited (decode : Decode) (env : RemoteEnv) (pname pid : String)
    (locs : List Locale) (s : SweepSt) (hdec : ∀ b, decode b ≠ none) :
    (runLocales false decode env pname pid locs s).visited = s.visited ∧
    (runLocales false decode env pname pid locs s).upVisited = s.upVisited := by
  induction locs generalizing s with
  | nil => exact ⟨rfl, rfl⟩
  | cons loc rest ih =>
    by_cases hd : s.dead = true
    · rw [runLocales, if_pos hd]
      exact ⟨rfl, rfl⟩
    · simp only [runLocales]
      rw [if_neg hd]
      cases hst : (downloadLocale decode (env.download pid loc.id) s.sync pname loc.name).state with
      | fatal => exact absurd hst (downloadLocale_not_fatal _ _ _ _ _ hdec)
      | next syncNext =>
        cases he : (downloadLocale decode (env.download pid loc.id) s.sync pname loc.name).errMsg with
        | some e => exact ih _
        | none => exact ih _

theorem runLocales_etags (decode : Decode) (env : RemoteEnv) (pname pid : String)
    (locs : List Locale) (s : SweepSt) (hdec : ∀ b, decode b ≠ none) :
    (runLocales false decode env pname pid locs s).etags.length =
      s.etags.length + (if s.dead = true then 0 else locs.length) := by
  induction locs generalizing s with
  | nil => simp [runLocales]
  | cons loc rest ih =>
    by_cases hd : s.dead = true
    · rw [runLocales, if_pos hd]
      simp [hd]
    · have hb : s.dead = false := by simpa using hd
      simp only [runLocales]
      rw [if_neg hd]
      cases hst : (downloadLocale decode (env.download pid loc.id) s.sync pname loc.name).state with
      | fatal => exact absurd hst (downloadLocale_not_fatal _ _ _ _ _ hdec)
      | next syncNext =>
        cases he : (downloadLocale decode (env.download pid loc.id) s.sync pname loc.name).errMsg with
        | some e =>
          refine (ih _).trans ?_
          simp [hb]
          omega
        | none =>
          refine (ih _).trans ?_
          simp [hb]
          omega

theorem runProjects_dead (decode : Decode) (env : RemoteEnv)
    (projects : List (String × String)) (s : SweepSt) (hdec : ∀ b, decode b ≠ none) :
    (runProjects false decode env projects s).dead = s.dead := by
  induction projects generalizing s with
  | nil => rfl
  | cons pr rest ih =>
    obtain ⟨pname, pid⟩ := pr
    by_cases hd : s.dead = true
    · rw [runProjects, if_pos hd]
    · simp only [runProjects]
      rw [if_neg hd]
      cases hq : (getLocalesAux cfgPerPage (env.pages pid)).1 with
      | error e => exact ih _
      | ok locs =>
        refine (ih _).trans ?_
        exact runLocales_dead _ _ _ _ _ _ hdec

theorem runProjects_visited (decode : Decode) (env : RemoteEnv)
    (projects : List (String × String)) (s : SweepSt) (hdec : ∀ b, decode b ≠ none) :
    (runProjects false decode env projects s).visited =
      s.visited ++ (if s.dead = true then [] else projects.map Prod.fst) := by
  induction projects generalizing s with
  | nil => simp [runProjects]
  | cons pr rest ih =>
    obtain ⟨pname, pid⟩ := pr
    by_cases hd : s.dead = true
    · rw [runProjects, if_pos hd]
      simp [hd]
    · have hb : s.dead = false := by simpa using hd
      simp only [runProjects]
      rw [if_neg hd]
      cases hq : (getLocalesAux cfgPerPage (env.pages pid)).1 with
      | error e =>
        refine (ih _).trans ?_
        simp [hb]
      | ok locs =>
        refine (ih _).trans ?_
        rw [(runLocales_visited decode env pname pid locs _ hdec).1,
          runLocales_dead _ _ _ _ _ _ hdec]
        simp [hb]

theorem runProjects_etags (decode : Decode) (env : RemoteEnv)
    (projects : List (String × String)) (s : SweepSt) (hdec : ∀ b, decode b ≠ none) :
    (runProjects false decode env projects s).etags.length =
      s.etags.length + (if s.dead = true then 0 else (sweepPairs env projects).length) := by
  induction projects generalizing s with
  | nil => simp [runProjects, sweepPairs]
  | cons pr rest ih =>
    obtain ⟨pname, pid⟩ := pr
    by_cases hd : s.dead = true
    · rw [runProjects, if_pos hd]
      simp [hd]
    · have hb : s.dead = false := by simpa using hd
      simp only [runProjects]
      rw [if_neg hd]
      cases hq : (getLocalesAux cfgPerPage (env.pages pid)).1 with
      | error e =>
        refine (ih _).trans ?_
        simp [hb, sweepPairs, projectPairs, hq]
      | ok locs =>
        refine (ih _).trans ?_
        rw [runLocales_etags _ _ _ _ _ _ hdec, runLocales_dead _ _ _ _ _ _ hdec]
        simp [hb, sweepPairs, projectPairs, hq]
        omega

/-! Claim C8 (error handling across pairs and projects). -/

/-- C8, counterexample: with the error handler the program installs
(i18nGenContext.ErrorHandler calls log.Fatal, modelled by the fatal flag),
the listing failure of project A terminates the run: project B is never
visited and its locale is never downloaded, although with a handler that
merely records the error the sweep would download it; so the claimed
"processing of the remaining pairs and projects continues; the run as a
whole is not aborted by any single pair's failure" fails on this input. -/
theorem C8_counterexample :
    (runProjects true decodeAll C8env C8projects C8start).dead = true ∧
    (runProjects true decodeAll C8env C8projects C8start).visited = ["A"] ∧
    (runProjects true decodeAll C8env C8projects C8start).downloaded = [] ∧
    (runProjects true decodeAll C8env C8projects C8start).errs = ["boom"] ∧
    (runProjects false decodeAll C8env C8projects C8start).downloaded = [("B", "en")] := by
  refine ⟨rfl, rfl, rfl, rfl, rfl⟩

/-- C8 (amended): every single-pair failure is reported through the
error-handling collaborator, and the worker loops themselves continue with
the remaining entries, pairs and projects whenever the handler returns
(modelled by the non-fatal flag): the upload loop reaches every entry, the
download sweep reaches every project and attempts every listed locale, and
no failure marks the run dead.  Because the installed handler terminates
the process, the composed program instead aborts at the first failure, as
the counterexample shows. -/
theorem C8_error_handling_amended (decode : Decode) (env : RemoteEnv)
    (projects : List (String × String))
    (entries : List ((String × String) × List Bytes)) (s : SweepSt)
    (hdec : ∀ b, decode b ≠ none) (hs : s.dead = false) :
    (runUpload false env projects entries s).dead = false ∧
    (runUpload false env projects entries s).upVisited =
      s.upVisited ++ entries.map (fun en => en.1.1) ∧
    (runProjects false decode env projects s).dead = false ∧
    (runProjects false decode env projects s).visited = s.visited ++ projects.map Prod.fst ∧
    (runProjects false decode env projects s).etags.length =
      s.etags.length + (sweepPairs env projects).length := by
  refine ⟨(runUpload_continues env projects entries s hs).1,
    (runUpload_continues env projects entries s hs).2, ?_, ?_, ?_⟩
  · rw [runProjects_dead _ _ _ _ hdec]
    exact hs
  · rw [runProjects_visited _ _ _ _ hdec]
    simp [hs]
  · rw [runProjects_etags _ _ _ _ hdec]
    simp [hs]

/-- C8 witness: with a returning handler, the failing project A is reported
but project B is still visited, and its one listed locale is attempted. -/
theorem C8_error_handling_amended_witness :
    (runProjects false decodeAll C8env C8projects C8start).visited = ["A", "B"] ∧
    (runProjects false decodeAll C8env C8projects C8start).etags.length = 1 := by
  have h := C8_error_handling_amended decodeAll C8env C8projects [] C8start
    (fun b => by simp [decodeAll]) rfl
  refine ⟨h.2.2.2.1.trans (by decide), h.2.2.2.2.trans (by decide)⟩

theorem downloadLocale_etagSent (decode : Decode) (remote : Remote) (st : SyncState)
    (p l : String) :
    (downloadLocale decode remote st p l).etagSent = Etag st.lst st.files p l := by
  simp only [downloadLocale]
  cases hi : downloadLocaleImpl remote (Etag st.lst st.files p l) with
  | error e => simp
  | ok v =>
    obtain ⟨data, ne⟩ := v
    by_cases hl : data.length = 0 <;> simp [hl]

theorem downloadLocale_files_other (decode : Decode) (remote : Remote) (st : SyncState)
    (p l p' l' : String) (syncNext : SyncState) (h : ¬(p' = p ∧ l' = l)) :
    (downloadLocale decode remote st p l).state = StepResult.next syncNext →
    syncNext.files p' l' = st.files p' l' := by
  simp only [downloadLocale]
  cases hi : downloadLocaleImpl remote (Etag st.lst st.files p l) with
  | error e =>
    intro hst
    simp only [] at hst
    injection hst with h1
    rw [← h1]
  | ok v =>
    obtain ⟨data, ne⟩ := v
    by_cases hl : data.length = 0
    · simp only [hl, if_true, if_pos]
      intro hst
      injection hst with h1
      rw [← h1]
    · simp only [hl, if_false, OnDownload]
      cases hdd : decode data with
      | none =>
        intro hst
        simp at hst
      | some es =>
        intro hst
        simp only [] at hst
        injection hst with h1
        rw [← h1]
        exact writeFile_other st.files p l p' l' data h

theorem runLocales_invariant (fatal : Bool) (decode : Decode) (env : RemoteEnv)
    (pname pid : String) (locs : List Locale) (s : SweepSt)
    (hnd : (locs.map (fun loc => (pname, loc.name))).Nodup)
    (habs : ∀ loc ∈ locs, s.sync.files pname loc.name = none) :
    (∀ e ∈ (runLocales fatal decode env pname pid locs s).etags, e ∈ s.etags ∨ e = "") ∧
    (∀ p l, (runLocales fatal decode env pname pid locs s).sync.files p l ≠ s.sync.files p l →
      (p, l) ∈ locs.map (fun loc => (pname, loc.name))) := by
  induction locs generalizing s with
  | nil => exact ⟨fun e he => Or.inl he, fun p l hne2 => absurd rfl hne2⟩
  | cons loc rest ih =>
    rw [List.map_cons] at hnd
    have hnotin := (List.nodup_cons.mp hnd).1
    have hnd' := (List.nodup_cons.mp hnd).2
    by_cases hd : s.dead = true
    · rw [runLocales, if_pos hd]
      exact ⟨fun e he => Or.inl he, fun p l hne2 => absurd rfl hne2⟩
    · simp only [runLocales]
      rw [if_neg hd]
      cases hr : downloadLocale decode (env.download pid loc.id) s.sync pname loc.name with
      | mk rstate rerr rinv retag =>
      have hets : retag = "" := by
        have h1 := downloadLocale_etagSent decode (env.download pid loc.id) s.sync pname loc.name
        rw [hr] at h1
        have h2 := Etag_file_absent s.sync.lst s.sync.files pname loc.name
          (habs loc (List.mem_cons_self _ _))
        simpa using h1.trans h2
      cases rstate with
      | fatal =>
        constructor
        · intro e he
          rcases List.mem_append.mp he with h1 | h1
          · exact Or.inl h1
          · right
            rw [List.mem_singleton] at h1
            rw [h1, hets]
        · intro p l hne2
          exact absurd rfl hne2
      | next syncNext =>
        have hst : (downloadLocale decode (env.download pid loc.id) s.sync pname loc.name).state
            = StepResult.next syncNext := by rw [hr]
        have hfo : ∀ p' l', ¬(p' = pname ∧ l' = loc.name) →
            syncNext.files p' l' = s.sync.files p' l' := fun p' l' hh =>
          downloadLocale_files_other decode (env.download pid loc.id) s.sync
            pname loc.name p' l' syncNext hh hst
        have habs' : ∀ loc' ∈ rest, syncNext.files pname loc'.name = none := by
          intro loc' hmem
          have hneq : ¬(pname = pname ∧ loc'.name = loc.name) := by
            intro hcontra
            exact hnotin (hcontra.2 ▸ List.mem_map_of_mem _ hmem)
          rw [hfo pname loc'.name hneq]
          exact habs loc' (List.mem_cons_of_mem _ hmem)
        cases rerr with
        | some e2 =>
          cases fatal with
          | true =>
            constructor
            · intro e he
              rcases List.mem_append.mp he with h1 | h1
              · exact Or.inl h1
              · right
                rw [List.mem_singleton] at h1
                rw [h1, hets]
            · intro p l hne2
              rcases Decidable.em ((p, l) = (pname, loc.name)) with hpl | hpl
              · rw [List.map_cons, hpl]
                exact List.mem_cons_self _ _
              · have hpl2 : ¬(p = pname ∧ l = loc.name) := fun hc => hpl (by rw [hc.1, hc.2])
                exact absurd (hfo p l hpl2) hne2
          | false =>
            constructor
            · intro e he
              rcases (ih _ hnd' habs').1 e he with h1 | h1
              · rcases List.mem_append.mp h1 with h2 | h2
                · exact Or.inl h2
                · right
                  rw [List.mem_singleton] at h2
                  rw [h2, hets]
              · exact Or.inr h1
            · intro p l hne2
              rcases Decidable.em ((p, l) = (pname, loc.name)) with hpl | hpl
              · rw [List.map_cons, hpl]
                exact List.mem_cons_self _ _
              · have hpl2 : ¬(p = pname ∧ l = loc.name) := fun hc => hpl (by rw [hc.1, hc.2])
                rw [← hfo p l hpl2] at hne2
                rw [List.map_cons]
                exact List.mem_cons_of_mem _ ((ih _ hnd' habs').2 p l hne2)
        | none =>
          constructor
          · intro e he
            rcases (ih _ hnd' habs').1 e he with h1 | h1
            · rcases List.mem_append.mp h1 with h2 | h2
              · exact Or.inl h2
              · right
                rw [List.mem_singleton] at h2
                rw [h2, hets]
            · exact Or.inr h1
          · intro p l hne2
            rcases Decidable.em ((p, l) = (pname, loc.name)) with hpl | hpl
            · rw [List.map_cons, hpl]
              exact List.mem_cons_self _ _
            · have hpl2 : ¬(p = pname ∧ l = loc.name) := fun hc => hpl (by rw [hc.1, hc.2])
              rw [← hfo p l hpl2] at hne2
              rw [List.map_cons]
              exact List.mem_cons_of_mem _ ((ih _ hnd' habs').2 p l hne2)

theorem runProjects_invariant (fatal : Bool) (decode : Decode) (env : RemoteEnv)
    (projects : List (String × String)) (s : SweepSt)
    (hnd : (sweepPairs env projects).Nodup)
    (habs : ∀ pr ∈ sweepPairs env projects, s.sync.files pr.1 pr.2 = none) :
    (∀ e ∈ (runProjects fatal decode env projects s).etags, e ∈ s.etags ∨ e = "") ∧
    (∀ p l, (runProjects fatal decode env projects s).sync.files p l ≠ s.sync.files p l →
      (p, l) ∈ sweepPairs env projects) := by
  induction projects generalizing s with
  | nil => exact ⟨fun e he => Or.inl he, fun p l hne2 => absurd rfl hne2⟩
  | cons pr rest ih =>
    obtain ⟨pname, pid⟩ := pr
    rw [sweepPairs] at hnd habs ⊢
    have hnd1 := (List.nodup_append.mp hnd).1
    have hnd2 := (List.nodup_append.mp hnd).2.1
    have hdisj := (List.nodup_append.mp hnd).2.2
    by_cases hd : s.dead = true
    · rw [runProjects, if_pos hd]
      exact ⟨fun e he => Or.inl he, fun p l hne2 => absurd rfl hne2⟩
    · simp only [runProjects]
      rw [if_neg hd]
      cases hq : (getLocalesAux cfgPerPage (env.pages pid)).1 with
      | error e2 =>
        have hpp : projectPairs env pname pid = [] := by simp [projectPairs, hq]
        have habs2 : ∀ pr ∈ sweepPairs env rest,
            ({ s with
               errs := s.errs ++ [e2]
               visited := s.visited ++ [pname]
               calls := s.calls + (getLocalesAux cfgPerPage (env.pages pid)).2 } :
              SweepSt).sync.files pr.1 pr.2 = none :=
          fun pr hpr => habs pr (List.mem_append_right _ hpr)
        cases fatal with
        | true => exact ⟨fun e he => Or.inl he, fun p l hne2 => absurd rfl hne2⟩
        | false =>
          constructor
          · intro e he
            rcases (ih _ hnd2 habs2).1 e he with h1 | h1
            · exact Or.inl h1
            · exact Or.inr h1
          · intro p l hne2
            exact List.mem_append_right _ ((ih _ hnd2 habs2).2 p l hne2)
      | ok locs =>
        have hpp : projectPairs env pname pid = locs.map (fun loc => (pname, loc.name)) := by
          simp [projectPairs, hq]
        have hinner := runLocales_invariant fatal decode env pname pid locs
          ({ s with
             visited := s.visited ++ [pname]
             calls := s.calls + (getLocalesAux cfgPerPage (env.pages pid)).2 } : SweepSt)
          (hpp ▸ hnd1)
          (fun loc hmem => habs _ (List.mem_append_left _
            (hpp ▸ List.mem_map_of_mem _ hmem)))
        have habs3 : ∀ pr ∈ sweepPairs env rest,
            (runLocales fatal decode env pname pid locs
              ({ s with
                 visited := s.visited ++ [pname]
                 calls := s.calls + (getLocalesAux cfgPerPage (env.pages pid)).2 } :
                SweepSt)).sync.files pr.1 pr.2 = none := by
          intro pr hpr
          rcases Decidable.em ((runLocales fatal decode env pname pid locs
              ({ s with
                 visited := s.visited ++ [pname]
                 calls := s.calls + (getLocalesAux cfgPerPage (env.pages pid)).2 } :
                SweepSt)).sync.files pr.1 pr.2 = s.sync.files pr.1 pr.2) with hch | hch
          · rw [hch]
            exact habs pr (List.mem_append_right _ hpr)
          · exfalso
            have hmem2 := hinner.2 pr.1 pr.2 hch
            rw [← hpp] at hmem2
            exact hdisj hmem2 ((Prod.mk.eta (p := pr)) ▸ hpr)
        constructor
        · intro e he
          rcases (ih _ hnd2 habs3).1 e he with h1 | h1
          · rcases hinner.1 e h1 with h2 | h2
            · exact Or.inl h2
            · exact Or.inr h2
          · exact Or.inr h1
        · intro p l hne2
          rcases Decidable.em ((runProjects fatal decode env rest
              (runLocales fatal decode env pname pid locs
                ({ s with
                   visited := s.visited ++ [pname]
                   calls := s.calls + (getLocalesAux cfgPerPage (env.pages pid)).2 } :
                  SweepSt))).sync.files p l =
              (runLocales fatal decode env pname pid locs
                ({ s with
                   visited := s.visited ++ [pname]
                   calls := s.calls + (getLocalesAux cfgPerPage (env.pages pid)).2 } :
                  SweepSt)).sync.files p l) with hch | hch
          · have hi2 : (runLocales fatal decode env pname pid locs
                ({ s with
                   visited := s.visited ++ [pname]
                   calls := s.calls + (getLocalesAux cfgPerPage (env.pages pid)).2 } :
                  SweepSt)).sync.files p l ≠ s.sync.files p l := fun hcc =>
              hne2 (hch.trans hcc)
            exact List.mem_append_left _ (hpp ▸ hinner.2 p l hi2)
          · exact List.mem_append_right _ ((ih _ hnd2 habs3).2 p l hch)

/-! Claim C10 (clean directory at sweep time, no tokens presented). -/

/-- C10: a run that passes the rate gate first clears the localized_data
directory, and the upload phase touches no file, so when the download sweep
starts every local file is absent and its hash reads as INVALID_CRC32;
consequently, provided the sweep enumerates each (project, locale) pair at
most once, every cache token the sweep presents to the remote service is
the absent token (the empty string). -/
theorem C10_sweep_no_tokens (now now₂ : Int) (fatal : Bool) (decode : Decode) (env : RemoteEnv)
    (uploadEntries : List ((String × String) × List Bytes))
    (projects : List (String × String)) (ri : RunInfo)
    (hgate : ¬(now - ri.lastRunTime ≤ GLOBAL_RUN_DELAY))
    (hnd : (sweepPairs env projects).Nodup) :
    (∀ p l, (runUpload fatal env projects uploadEntries
        (initialSweep (fun _ _ => none) ri.checkSumList)).sync.files p l = none) ∧
    (∀ p l, getFileCrc32 (runUpload fatal env projects uploadEntries
        (initialSweep (fun _ _ => none) ri.checkSumList)).sync.files p l = INVALID_CRC32) ∧
    (mainModel now now₂ fatal decode env uploadEntries projects ri).sweep.etags.all
      (fun e => e == "") = true := by
  have hup := runUpload_frame fatal env projects uploadEntries
    (initialSweep (fun _ _ => none) ri.checkSumList)
  have hfiles : ∀ p l, (runUpload fatal env projects uploadEntries
      (initialSweep (fun _ _ => none) ri.checkSumList)).sync.files p l = none := by
    intro p l
    rw [hup.1]
    rfl
  refine ⟨hfiles, ?_, ?_⟩
  · intro p l
    simp only [getFileCrc32, hfiles p l]
  · have hsweep : (mainModel now now₂ fatal decode env uploadEntries projects ri).sweep =
        runProjects fatal decode env projects (runUpload fatal env projects uploadEntries
          (initialSweep (fun _ _ => none) ri.checkSumList)) := by
      rw [mainModel, if_neg hgate]
      dsimp only
      split
      · rfl
      · rfl
    rw [hsweep, List.all_eq_true]
    intro e he
    have h := (runProjects_invariant fatal decode env projects _ hnd
      (fun pr _ => hfiles pr.1 pr.2)).1 e he
    rcases h with h1 | h1
    · rw [hup.2.1] at h1
      exact absurd h1 (List.not_mem_nil e)
    · rw [h1]
      rfl

/-- C10 witness: a run past the gate against a remote with one project and
one locale presents only the absent token. -/
theorem C10_sweep_no_tokens_witness :
    (mainModel 3000000000 4000000000 true decodeAll C8env [] [("B", "idB")] {}).sweep.etags.all
      (fun e => e == "") = true :=
  (C10_sweep_no_tokens 3000000000 4000000000 true decodeAll C8env [] [("B", "idB")] {}
    (by decide) (by decide)).2.2

end I18nGen
